import Mathlib

/-!
Verification development for the UI5 builder's bundle resolver
(`ResolvedBundleDefinition`) and XML template dependency analyzer
(`XMLTemplateAnalyzer`).

The JavaScript sources are embedded shallowly:

* Promise chains become explicit sequential folds over `Except`.  The
  JavaScript event loop runs one synchronous job to completion before any
  promise `then`-callback fires; callbacks of already-settled promises run
  in FIFO (registration) order.  The embedding mirrors this: the analyzer's
  synchronous tree traversal runs first and the `findResource` callbacks are
  folded over afterwards, in registration order.
* The resource pool is a parameter: `String → Bool` for `findResource`
  (found / not-found) and `String → Except String ModuleInfo` for
  `getModuleInfo` (info / rejection).
* `ModuleInfo`, the section-type enumeration, the client constants and the
  module naming utility are collaborators whose sources are not at hand;
  they are modelled from the spec (marked as such on each definition).
-/

namespace UI5

/-- Modelled from the spec: the shared Module Info data entity
(`lib/lbt/resources/ModuleInfo.js` is not among the sources).  Per the spec
it carries an insertion-ordered set of direct dependencies with a
per-dependency conditional flag, a set of implicit dependency names, a
raw-module flag and an ordered list of nested submodule infos. -/
inductive ModuleInfo : Type where
  | mk (name : String) (dependencies : List (String × Bool))
       (implicitDependencies : List String) (rawModule : Bool)
       (subModules : List ModuleInfo)

def ModuleInfo.name : ModuleInfo → String
  | .mk n _ _ _ _ => n

def ModuleInfo.dependencies : ModuleInfo → List (String × Bool)
  | .mk _ d _ _ _ => d

def ModuleInfo.implicitDependencies : ModuleInfo → List String
  | .mk _ _ i _ _ => i

def ModuleInfo.rawModule : ModuleInfo → Bool
  | .mk _ _ _ r _ => r

def ModuleInfo.subModules : ModuleInfo → List ModuleInfo
  | .mk _ _ _ _ s => s

/-- Modelled from the spec: `new ModuleInfo()` creates an empty info. -/
def ModuleInfo.empty : ModuleInfo := .mk "" [] [] false []

/-- Modelled from the spec: assigning `info.name = n`. -/
def ModuleInfo.setName (info : ModuleInfo) (n : String) : ModuleInfo :=
  .mk n info.dependencies info.implicitDependencies info.rawModule info.subModules

/-- Modelled from the spec: `info.rawModule = true`. -/
def ModuleInfo.setRawModule (info : ModuleInfo) (r : Bool) : ModuleInfo :=
  .mk info.name info.dependencies info.implicitDependencies r info.subModules

/-- Modelled from the spec: `ModuleInfo#addDependency(name, conditional)`.
Self-references are silently dropped ("a module never depends on itself").
Insertion rules for the ordered dependency map: the first write sets the
conditional flag; a later unconditional write clears it; a later conditional
write never re-sets it once the dependency is recorded unconditionally. -/
def ModuleInfo.addDependency (info : ModuleInfo) (dep : String)
    (conditional : Bool := false) : ModuleInfo :=
  if info.name = dep then info
  else
    match info.dependencies.lookup dep with
    | none =>
      .mk info.name (info.dependencies ++ [(dep, conditional)])
        info.implicitDependencies info.rawModule info.subModules
    | some true =>
      if conditional then info
      else
        .mk info.name
          (info.dependencies.map fun p => if p.1 = dep then (p.1, false) else p)
          info.implicitDependencies info.rawModule info.subModules
    | some false => info

/-- Modelled from the spec: `ModuleInfo#addImplicitDependency(name)`;
implicit dependencies form a set (adding twice is idempotent). -/
def ModuleInfo.addImplicitDependency (info : ModuleInfo) (dep : String) : ModuleInfo :=
  if info.implicitDependencies.contains dep then info
  else
    .mk info.name info.dependencies (info.implicitDependencies ++ [dep])
      info.rawModule info.subModules

/-- Modelled from the spec: `ModuleInfo#addSubModule(info)` appends to the
ordered list of nested submodule infos. -/
def ModuleInfo.addSubModule (info : ModuleInfo) (sub : ModuleInfo) : ModuleInfo :=
  .mk info.name info.dependencies info.implicitDependencies info.rawModule
    (info.subModules ++ [sub])

/-- Modelled from the spec: the section mode enumeration from
`BundleDefinition.js` (not among the sources): Provided, Require, Raw,
Preload. -/
inductive SectionType : Type where
  | Provided
  | Require
  | Raw
  | Preload
deriving DecidableEq

/-- A section of a bundle definition: a mode plus an ordered module list. -/
structure Section : Type where
  mode : SectionType
  modules : List String
deriving DecidableEq

/-- A bundle definition: a name plus an ordered list of sections.  The
resolved bundle definition wraps the same data (each `ResolvedSection`
proxies its section definition's `mode` and module list), so the embedding
works with this data directly. -/
structure BundleDefinition : Type where
  name : String
  sections : List Section
deriving DecidableEq

/-- Modelled from the spec: `UI5ClientConstants.MODULE__SAP_UI_CORE_CORE`,
the platform's designated "core" module. -/
def MODULE__SAP_UI_CORE_CORE : String := "sap/ui/core/Core.js"

/-- Modelled from the spec: `UI5ClientConstants.MODULE__JQUERY_SAP_GLOBAL`,
the platform's designated "legacy global" module. -/
def MODULE__JQUERY_SAP_GLOBAL : String := "jquery.sap.global.js"

/-- `ResolvedBundleDefinition#containsCore`: some Raw or Require section
lists the designated core module. -/
def containsCore (bd : BundleDefinition) : Bool :=
  bd.sections.any fun s =>
    (decide (s.mode = .Raw) || decide (s.mode = .Require))
      && s.modules.any fun m => m == MODULE__SAP_UI_CORE_CORE

/-- `ResolvedBundleDefinition#containsGlobal`: some Raw section lists the
designated legacy global module. -/
def containsGlobal (bd : BundleDefinition) : Bool :=
  bd.sections.any fun s =>
    decide (s.mode = .Raw)
      && s.modules.any fun m => m == MODULE__JQUERY_SAP_GLOBAL

/-- `ResolvedBundleDefinition#executes(moduleName)`: some Raw or Require
section lists the module. -/
def executes (bd : BundleDefinition) (moduleName : String) : Bool :=
  bd.sections.any fun s =>
    (decide (s.mode = .Raw) || decide (s.mode = .Require))
      && s.modules.any fun m => m == moduleName

/-- Boolean lexicographic order on character lists.  JavaScript's default
`Array#sort` compares elements as strings by UTF-16 code units; for the
Unicode scalar values Lean stores this is codepoint-lexicographic order
(the two agree on all ASCII module names). -/
def lexLe : List Char → List Char → Bool
  | [], _ => true
  | _ :: _, [] => false
  | a :: as, b :: bs => if a < b then true else if b < a then false else lexLe as bs

/-- String comparison used to model `modules.sort()`. -/
def strLe (a b : String) : Bool := lexLe a.data b.data

/-- The embedding of `modules.sort()` on a copied module list: the sorted
permutation under `strLe`. -/
def sortStrings (l : List String) : List String :=
  List.insertionSort (fun a b => strLe a b = true) l

/-- The relation `modules.sort()` sorts by, as a `Prop`-valued relation. -/
def strLeRel : String → String → Prop := fun a b => strLe a b = true

/-- The `Promise.all(modules.map(m => pool.getModuleInfo(m).then(i =>
bundleInfo.addSubModule(i))))` step of `createModuleInfo`: each module's
info is fetched and appended as a submodule.  With the pool's promises
settling in request order, the appends happen in list order and the first
rejection becomes the rejection of the whole step. -/
def addSubModules (pool : String → Except String ModuleInfo)
    (bundleInfo : ModuleInfo) : List String → Except String ModuleInfo
  | [] => .ok bundleInfo
  | m :: rest =>
    match pool m with
    | .error e => .error e
    | .ok subinfo => addSubModules pool (bundleInfo.addSubModule subinfo) rest

/-- One `promise.then(...)` step of `createModuleInfo`, handling a single
section (`ResolvedBundleDefinition#createModuleInfo`, lines 47–72). -/
def resolveSection (pool : String → Except String ModuleInfo)
    (bundleInfo : ModuleInfo) (s : Section) : Except String ModuleInfo :=
  if s.mode = .Provided then
    .ok bundleInfo
  else if s.mode = .Require then
    .ok (s.modules.foldl (fun info m => info.addDependency m) bundleInfo)
  else
    let bundleInfo :=
      if s.mode = .Raw ∧ s.modules.length ≠ 0 then bundleInfo.setRawModule true
      else bundleInfo
    let modules := if s.mode = .Preload then sortStrings s.modules else s.modules
    addSubModules pool bundleInfo modules

/-- The sequential promise chain of `createModuleInfo`: each section's work
is completed before the next section's callback runs; a rejection skips all
later callbacks and propagates. -/
def resolveSections (pool : String → Except String ModuleInfo)
    (bundleInfo : ModuleInfo) : List Section → Except String ModuleInfo
  | [] => .ok bundleInfo
  | s :: rest =>
    match resolveSection pool bundleInfo s with
    | .error e => .error e
    | .ok bundleInfo' => resolveSections pool bundleInfo' rest

/-- `ResolvedBundleDefinition#createModuleInfo(pool)` (lines 41–76). -/
def createModuleInfo (bd : BundleDefinition) (pool : String → Except String ModuleInfo) :
    Except String ModuleInfo :=
  resolveSections pool (ModuleInfo.empty.setName bd.name) bd.sections

/-- The pool lookups a single section issues: none for Provided/Require
sections, the declared list for Raw sections, and the sorted copy for
Preload sections (`modules.map(m => pool.getModuleInfo(m))` launches one
lookup per entry before any of them settles). -/
def sectionPoolFetches (s : Section) : List String :=
  if s.mode = .Provided then []
  else if s.mode = .Require then []
  else if s.mode = .Preload then sortStrings s.modules
  else s.modules

/-- Instrumented run of one section callback: besides the result it reports
the post-state of the section object (the Preload sort runs on
`section.modules.slice()`, a copy, so the section is left as it was) and the
pool lookups issued. -/
def resolveSectionTraced (pool : String → Except String ModuleInfo)
    (bundleInfo : ModuleInfo) (s : Section) :
    Except String ModuleInfo × Section × List String :=
  (resolveSection pool bundleInfo s, s, sectionPoolFetches s)

/-- Instrumented run of the section chain: result, post-state of the section
list, and the pool lookups issued in order.  After a rejection the remaining
callbacks never run, so they issue no lookups. -/
def resolveSectionsTraced (pool : String → Except String ModuleInfo)
    (bundleInfo : ModuleInfo) : List Section →
    Except String ModuleInfo × List Section × List String
  | [] => (.ok bundleInfo, [], [])
  | s :: rest =>
    match resolveSectionTraced pool bundleInfo s with
    | (.error e, s', calls) => (.error e, s' :: rest, calls)
    | (.ok bundleInfo', s', calls) =>
      let (r, rest', calls') := resolveSectionsTraced pool bundleInfo' rest
      (r, s' :: rest', calls ++ calls')

/-- Instrumented `createModuleInfo`. -/
def createModuleInfoTraced (bd : BundleDefinition)
    (pool : String → Except String ModuleInfo) :
    Except String ModuleInfo × List Section × List String :=
  resolveSectionsTraced pool (ModuleInfo.empty.setName bd.name) bd.sections

/-! ## The XML template analyzer (`lib/lbt/analyzer/XMLTemplateAnalyzer.js`) -/

mutual
/-- A node of the parsed, namespace-annotated XML tree the analyzer
consumes: namespace URI (`node.$ns.uri || ""`), local name
(`node.$ns.local`), attributes (`node.$`, name to value) and the ordered
child list (`node.$$`). -/
inductive XmlNode : Type where
  | mk (nsUri nsLocal : String) (attrs : List (String × String))
       (children : XmlNodeList)

/-- The ordered child list of a node. -/
inductive XmlNodeList : Type where
  | nil
  | cons (head : XmlNode) (tail : XmlNodeList)
end

def XmlNode.nsUri : XmlNode → String
  | .mk u _ _ _ => u

def XmlNode.nsLocal : XmlNode → String
  | .mk _ l _ _ => l

def XmlNode.attrs : XmlNode → List (String × String)
  | .mk _ _ a _ => a

def XmlNode.children : XmlNode → XmlNodeList
  | .mk _ _ _ c => c

/-- `getAttribute(node, attr)`: `(node.$ && node.$[attr] && node.$[attr].value)
|| null` — a missing attribute and an empty (falsy) value both yield null. -/
def getAttribute (node : XmlNode) (attr : String) : Option String :=
  match node.attrs.lookup attr with
  | some v => if v = "" then none else some v
  | none => none

def XHTML_NAMESPACE : String := "http://www.w3.org/1999/xhtml"

def SVG_NAMESPACE : String := "http://www.w3.org/2000/svg"

def TEMPLATING_NAMESPACE : String :=
  "http://schemas.sap.com/sapui5/extension/sap.ui.core.template/1"

/-- The test of `TEMPLATING_CONDITONAL_TAGS`, the regex matching exactly
`if` and `repeat`. -/
def isTemplatingConditionalTag (localName : String) : Bool :=
  localName == "if" || localName == "repeat"

/-- First character class of `PATTERN_LIBRARY_NAMESPACES`: `[a-zA-Z_$]`. -/
def isNsStartChar (c : Char) : Bool :=
  c.isAlpha || c == '_' || c == '$'

/-- Continuation character class of `PATTERN_LIBRARY_NAMESPACES`:
`[a-zA-z0-9_$]` — the regex really says `A-z`, so the characters between
`Z` and `a` (code points 91–96) are accepted as well. -/
def isNsPartChar (c : Char) : Bool :=
  (65 ≤ c.toNat && c.toNat ≤ 122) || c.isDigit || c == '_' || c == '$'

/-- A dotted-identifier segment: one start character followed by
continuation characters. -/
def isNsSegment : List Char → Bool
  | [] => false
  | c :: rest => isNsStartChar c && rest.all isNsPartChar

/-- Split a character list at every `.` (empty segments are kept, so a
leading, trailing or doubled dot produces an empty segment that fails the
segment test, as it fails the regex). -/
def splitDots : List Char → List (List Char)
  | [] => [[]]
  | c :: rest =>
    match splitDots rest with
    | [] => []
    | seg :: segs =>
      if c = '.' then [] :: seg :: segs else (c :: seg) :: segs

/-- The test of `PATTERN_LIBRARY_NAMESPACES`:
`/^([a-zA-Z_$][a-zA-z0-9_$]*(\.[a-zA-Z_$][a-zA-z0-9_$]*)*)$/`. -/
def isLibraryNamespace (s : String) : Bool :=
  (splitDots s.data).all isNsSegment

/-- Modelled from the spec: the external module naming utility
`ModuleName.fromUI5LegacyName(name, suffix)` (`lib/lbt/utils/ModuleName.js`
is not among the sources; the spec specifies it as the pure function
"dotted logical name + optional extension → resource path").  Dots become
slashes and the extension (default `.js`) is appended. -/
def fromUI5LegacyName (name : String) (suffix : String := ".js") : String :=
  String.mk (name.data.map fun c => if c = '.' then '/' else c) ++ suffix

def COMPONENTCONTAINER_MODULE : String := "sap/ui/core/ComponentContainer.js"

def COMPONENTCONTAINER_COMPONENTNAME_ATTRIBUTE : String := "name"

def FRAGMENTDEFINITION_MODULE : String := "sap/ui/core/FragmentDefinition.js"

def FRAGMENT_MODULE : String := "sap/ui/core/Fragment.js"

def FRAGMENT_FRAGMENTNAME_ATTRIBUTE : String := "fragmentName"

def FRAGMENT_TYPE_ATTRIBUTE : String := "type"

def HTMLVIEW_MODULE : String := "sap/ui/core/mvc/HTMLView.js"

def JSVIEW_MODULE : String := "sap/ui/core/mvc/JSView.js"

def JSONVIEW_MODULE : String := "sap/ui/core/mvc/JSONView.js"

def XMLVIEW_MODULE : String := "sap/ui/core/mvc/XMLView.js"

def ANYVIEW_VIEWNAME_ATTRIBUTE : String := "viewName"

def XMLVIEW_CONTROLLERNAME_ATTRIBUTE : String := "controllerName"

def XMLVIEW_RESBUNDLENAME_ATTRIBUTE : String := "resourceBundleName"

/-- ASCII lower-casing of JavaScript's `String#toLowerCase` (fragment type
values are plain ASCII like `XML` or `JS`). -/
def jsToLowerCase (s : String) : String :=
  String.mk (s.data.map fun c =>
    if 65 ≤ c.toNat ∧ c.toNat ≤ 90 then Char.ofNat (c.toNat + 32) else c)

/-- `XMLTemplateAnalyzer#_getFragmentExtension(type)`. -/
def _getFragmentExtension (type : String) : String :=
  ".fragment." ++ jsToLowerCase type

/-- A `findResource` promise pushed onto `this.promises` during traversal.
Its `then`-callback closes over the computed module name and the node (for
the secondary-reference attribute reads); `this.conditional` is *not*
captured — the callback reads the instance field when it runs. -/
structure PendingLookup : Type where
  moduleName : String
  node : XmlNode

/-- The mutable state of one `XMLTemplateAnalyzer` instance: the pool
(`this._pool`, here just its `findResource` success predicate), the busy
flag, and the per-pass fields `this.info`, `this.conditional` and
`this.promises`. -/
structure Analyzer : Type where
  pool : String → Bool
  busy : Bool
  info : ModuleInfo
  conditional : Bool
  promises : List PendingLookup

/-- `XMLTemplateAnalyzer#_addDependency(moduleName)`: drop references to
self, otherwise record with the *current* value of `this.conditional`. -/
def _addDependency (a : Analyzer) (moduleName : String) : Analyzer :=
  if a.info.name = moduleName then a
  else { a with info := a.info.addDependency moduleName a.conditional }

mutual
/-- `XMLTemplateAnalyzer#_analyzeNode(node)` — the synchronous part: the
conditional flag is saved, possibly set for templating `if`/`repeat`
subtrees, candidate dependencies push a pending `findResource` lookup onto
`this.promises`, children are traversed, and the flag is restored.  The
`findResource` callbacks themselves run only after this synchronous
traversal has returned (see `_runLookup`). -/
def _analyzeNode (node : XmlNode) (a : Analyzer) : Analyzer :=
  match node with
  | .mk uri localName attrList children =>
    let oldConditional := a.conditional
    let a :=
      if uri = TEMPLATING_NAMESPACE then
        if isTemplatingConditionalTag localName then { a with conditional := true }
        else a
      else if uri = XHTML_NAMESPACE ∨ uri = SVG_NAMESPACE then
        a
      else if isLibraryNamespace uri then
        let moduleName :=
          fromUI5LegacyName ((if uri ≠ "" then uri ++ "." else "") ++ localName)
        if FRAGMENTDEFINITION_MODULE ≠ moduleName then
          { a with promises :=
              a.promises ++ [⟨moduleName, .mk uri localName attrList children⟩] }
        else a
      else a
    let a := _analyzeChildren children a
    { a with conditional := oldConditional }

/-- `XMLTemplateAnalyzer#_analyzeChildren(node)`: traverse the ordered
child list. -/
def _analyzeChildren (l : XmlNodeList) (a : Analyzer) : Analyzer :=
  match l with
  | .nil => a
  | .cons c cs => _analyzeChildren cs (_analyzeNode c a)
end

/-- The `then`-callback of one `findResource` lookup (lines 210–267): on
success record the dependency and apply the secondary-reference rules; on
failure ignore the missing resource.  It runs after traversal, against the
instance state at that time. -/
def _runLookup (a : Analyzer) (pl : PendingLookup) : Analyzer :=
  if a.pool pl.moduleName then
    let a := _addDependency a pl.moduleName
    if pl.moduleName = COMPONENTCONTAINER_MODULE then
      match getAttribute pl.node COMPONENTCONTAINER_COMPONENTNAME_ATTRIBUTE with
      | some componentName =>
        _addDependency a (fromUI5LegacyName componentName "/Component.js")
      | none => a
    else if pl.moduleName = FRAGMENT_MODULE then
      match getAttribute pl.node FRAGMENT_FRAGMENTNAME_ATTRIBUTE,
          getAttribute pl.node FRAGMENT_TYPE_ATTRIBUTE with
      | some fragmentName, some type =>
        _addDependency a (fromUI5LegacyName fragmentName (_getFragmentExtension type))
      | _, _ => a
    else if pl.moduleName = HTMLVIEW_MODULE then
      match getAttribute pl.node ANYVIEW_VIEWNAME_ATTRIBUTE with
      | some viewName => _addDependency a (fromUI5LegacyName viewName ".view.html")
      | none => a
    else if pl.moduleName = JSVIEW_MODULE then
      match getAttribute pl.node ANYVIEW_VIEWNAME_ATTRIBUTE with
      | some viewName => _addDependency a (fromUI5LegacyName viewName ".view.js")
      | none => a
    else if pl.moduleName = JSONVIEW_MODULE then
      match getAttribute pl.node ANYVIEW_VIEWNAME_ATTRIBUTE with
      | some viewName => _addDependency a (fromUI5LegacyName viewName ".view.json")
      | none => a
    else if pl.moduleName = XMLVIEW_MODULE then
      match getAttribute pl.node ANYVIEW_VIEWNAME_ATTRIBUTE with
      | some viewName => _addDependency a (fromUI5LegacyName viewName ".view.xml")
      | none => a
    else a
  else a

/-- `XMLTemplateAnalyzer#_analyzeViewRootNode(node)`. -/
def _analyzeViewRootNode (node : XmlNode) (a : Analyzer) : Analyzer :=
  let a := { a with info := a.info.addImplicitDependency XMLVIEW_MODULE }
  let a :=
    match getAttribute node XMLVIEW_CONTROLLERNAME_ATTRIBUTE with
    | some controllerName =>
      _addDependency a (fromUI5LegacyName controllerName ".controller.js")
    | none => a
  let a :=
    match getAttribute node XMLVIEW_RESBUNDLENAME_ATTRIBUTE with
    | some resourceBundleName =>
      _addDependency a (fromUI5LegacyName resourceBundleName ".properties")
    | none => a
  _analyzeChildren node.children a

/-- How one call of `_analyze` ends: a synchronous `throw`, a promise
rejection, or a promise resolution carrying the enriched info. -/
inductive AnalyzeResult : Type where
  | thrown (msg : String)
  | rejected (msg : String)
  | resolved (info : ModuleInfo)

/-- Everything one `_analyze` call leaves behind: how the call ended, the
instance state afterwards, and the state of the caller-supplied Module Info
object afterwards. -/
structure AnalyzeOutcome : Type where
  result : AnalyzeResult
  analyzer : Analyzer
  infoOut : ModuleInfo

/-- `XMLTemplateAnalyzer#_analyze(xml, info, isFragment)`.  The externally
parsed input is the parse outcome (`Except`): the parser either reports an
error or hands over the root node.  On the success path the synchronous
traversal runs first; the `findResource` callbacks collected in
`this.promises` run afterwards in registration order, and `Promise.all`'s
callback then clears the busy flag and resolves with the info. -/
def _analyze (a : Analyzer) (xml : Except String XmlNode) (info : ModuleInfo)
    (isFragment : Bool) : AnalyzeOutcome :=
  if a.busy then
    ⟨.thrown "analyzer is busy", a, info⟩
  else
    let a := { a with info := info, conditional := false, promises := [], busy := true }
    match xml with
    | .error err => ⟨.rejected err, { a with busy := false }, info⟩
    | .ok result =>
      let a :=
        if isFragment then
          _analyzeNode result
            { a with info := a.info.addImplicitDependency FRAGMENT_MODULE }
        else
          _analyzeViewRootNode result a
      let a := a.promises.foldl _runLookup a
      ⟨.resolved a.info, { a with busy := false }, a.info⟩

/-- `XMLTemplateAnalyzer#analyzeView(xml, info)`. -/
def analyzeView (a : Analyzer) (xml : Except String XmlNode) (info : ModuleInfo) :
    AnalyzeOutcome :=
  _analyze a xml info false

/-- `XMLTemplateAnalyzer#analyzeFragment(xml, info)`. -/
def analyzeFragment (a : Analyzer) (xml : Except String XmlNode) (info : ModuleInfo) :
    AnalyzeOutcome :=
  _analyze a xml info true

/-- Two sections that agree on mode and agree on modules — up to permutation
when the mode is Preload, exactly otherwise. -/
def SectionEquiv (s₁ s₂ : Section) : Prop :=
  s₁.mode = s₂.mode ∧ s₁.modules.Perm s₂.modules ∧
    (s₁.mode = .Preload ∨ s₁.modules = s₂.modules)

mutual
/-- The pending `findResource` lookups a node's traversal registers, in
registration (pre-order) order: its own candidate lookup, if any, followed
by those of its children. -/
def nodeLookups (n : XmlNode) : List PendingLookup :=
  match n with
  | .mk uri localName attrList children =>
    let own : List PendingLookup :=
      if uri = TEMPLATING_NAMESPACE then []
      else if uri = XHTML_NAMESPACE ∨ uri = SVG_NAMESPACE then []
      else if isLibraryNamespace uri then
        let moduleName :=
          fromUI5LegacyName ((if uri ≠ "" then uri ++ "." else "") ++ localName)
        if FRAGMENTDEFINITION_MODULE ≠ moduleName then
          [⟨moduleName, .mk uri localName attrList children⟩]
        else []
      else []
    own ++ listLookups children

/-- The pending lookups registered by a child list, in order. -/
def listLookups (l : XmlNodeList) : List PendingLookup :=
  match l with
  | .nil => []
  | .cons c cs => nodeLookups c ++ listLookups cs
end

/-- The analyzer state after the success path of `_analyze`: the fields are
initialised, the synchronous traversal runs, then every registered
`findResource` callback runs in order. -/
def analyzeRun (a : Analyzer) (root : XmlNode) (info : ModuleInfo)
    (isFragment : Bool) : Analyzer :=
  let a := { a with info := info, conditional := false, promises := [], busy := true }
  let a :=
    if isFragment then
      _analyzeNode root { a with info := a.info.addImplicitDependency FRAGMENT_MODULE }
    else
      _analyzeViewRootNode root a
  a.promises.foldl _runLookup a

/-! ## Order-theoretic facts about the sort used for Preload sections -/

theorem lexLe_cons_iff {a b : Char} {as bs : List Char} :
    lexLe (a :: as) (b :: bs) = true ↔ a < b ∨ (a = b ∧ lexLe as bs = true) := by
  by_cases h1 : a < b
  · simp [lexLe, h1]
  · by_cases h2 : b < a
    · have hne : a ≠ b := fun h => absurd (h ▸ h2) (lt_irrefl a)
      simp [lexLe, h1, h2, hne]
    · have heq : a = b := le_antisymm (not_lt.mp h2) (not_lt.mp h1)
      simp [lexLe, h1, h2, heq]

theorem lexLe_total : ∀ x y : List Char, lexLe x y = true ∨ lexLe y x = true
  | [], _ => .inl rfl
  | _ :: _, [] => .inr rfl
  | a :: as, b :: bs => by
    rcases lt_trichotomy a b with h | h | h
    · exact .inl (lexLe_cons_iff.mpr (.inl h))
    · subst h
      rcases lexLe_total as bs with h' | h'
      · exact .inl (lexLe_cons_iff.mpr (.inr ⟨rfl, h'⟩))
      · exact .inr (lexLe_cons_iff.mpr (.inr ⟨rfl, h'⟩))
    · exact .inr (lexLe_cons_iff.mpr (.inl h))

theorem lexLe_trans : ∀ {x y z : List Char},
    lexLe x y = true → lexLe y z = true → lexLe x z = true
  | [], _, _, _, _ => rfl
  | _ :: _, [], _, hxy, _ => by simp [lexLe] at hxy
  | _ :: _, _ :: _, [], _, hyz => by simp [lexLe] at hyz
  | a :: as, b :: bs, c :: cs, hxy, hyz => by
    rcases lexLe_cons_iff.mp hxy with h | ⟨rfl, h⟩
    · rcases lexLe_cons_iff.mp hyz with h' | ⟨rfl, h'⟩
      · exact lexLe_cons_iff.mpr (.inl (lt_trans h h'))
      · exact lexLe_cons_iff.mpr (.inl h)
    · rcases lexLe_cons_iff.mp hyz with h' | ⟨rfl, h'⟩
      · exact lexLe_cons_iff.mpr (.inl h')
      · exact lexLe_cons_iff.mpr (.inr ⟨rfl, lexLe_trans h h'⟩)

theorem lexLe_antisymm : ∀ {x y : List Char},
    lexLe x y = true → lexLe y x = true → x = y
  | [], [], _, _ => rfl
  | [], _ :: _, _, hyx => by simp [lexLe] at hyx
  | _ :: _, [], hxy, _ => by simp [lexLe] at hxy
  | a :: as, b :: bs, hxy, hyx => by
    rcases lexLe_cons_iff.mp hxy with h | ⟨heq, h⟩
    · rcases lexLe_cons_iff.mp hyx with h' | ⟨heq', h'⟩
      · exact absurd h' (lt_asymm h)
      · subst heq'
        exact absurd h (lt_irrefl b)
    · subst heq
      rcases lexLe_cons_iff.mp hyx with h' | ⟨heq', h'⟩
      · exact absurd h' (lt_irrefl a)
      · rw [lexLe_antisymm h h']

instance : DecidableRel strLeRel := fun a b => instDecidableEqBool (strLe a b) true

instance : IsTotal String strLeRel :=
  ⟨fun a b => lexLe_total a.data b.data⟩

instance : IsTrans String strLeRel :=
  ⟨fun _ _ _ h h' => lexLe_trans h h'⟩

instance : IsAntisymm String strLeRel :=
  ⟨fun a b h h' => by
    cases a with
    | mk da =>
      cases b with
      | mk db => exact congrArg String.mk (lexLe_antisymm h h')⟩

theorem sortStrings_eq_insertionSort (l : List String) :
    sortStrings l = List.insertionSort strLeRel l := rfl

theorem sortStrings_perm (l : List String) : (sortStrings l).Perm l :=
  List.perm_insertionSort strLeRel l

theorem sortStrings_sorted (l : List String) : List.Sorted strLeRel (sortStrings l) :=
  List.sorted_insertionSort strLeRel l

theorem mem_sortStrings {m : String} {l : List String} :
    m ∈ sortStrings l ↔ m ∈ l :=
  (sortStrings_perm l).mem_iff

theorem sortStrings_eq_of_perm {l₁ l₂ : List String} (h : l₁.Perm l₂) :
    sortStrings l₁ = sortStrings l₂ :=
  List.eq_of_perm_of_sorted
    ((sortStrings_perm l₁).trans (h.trans (sortStrings_perm l₂).symm))
    (sortStrings_sorted l₁) (sortStrings_sorted l₂)

/-! ## Basic facts about the Module Info operations -/

theorem ModuleInfo.addDependency_name (info : ModuleInfo) (dep : String) (c : Bool) :
    (info.addDependency dep c).name = info.name := by
  cases info with
  | mk n d i r s =>
    simp only [ModuleInfo.addDependency]
    split
    · rfl
    · split <;> first | rfl | (split <;> rfl)

theorem ModuleInfo.addDependency_implicit (info : ModuleInfo) (dep : String) (c : Bool) :
    (info.addDependency dep c).implicitDependencies = info.implicitDependencies := by
  cases info with
  | mk n d i r s =>
    simp only [ModuleInfo.addDependency]
    split
    · rfl
    · split <;> first | rfl | (split <;> rfl)

theorem ModuleInfo.addDependency_rawModule (info : ModuleInfo) (dep : String) (c : Bool) :
    (info.addDependency dep c).rawModule = info.rawModule := by
  cases info with
  | mk n d i r s =>
    simp only [ModuleInfo.addDependency]
    split
    · rfl
    · split <;> first | rfl | (split <;> rfl)

theorem ModuleInfo.addDependency_subModules (info : ModuleInfo) (dep : String) (c : Bool) :
    (info.addDependency dep c).subModules = info.subModules := by
  cases info with
  | mk n d i r s =>
    simp only [ModuleInfo.addDependency]
    split
    · rfl
    · split <;> first | rfl | (split <;> rfl)

theorem ModuleInfo.addSubModule_name (info sub : ModuleInfo) :
    (info.addSubModule sub).name = info.name := rfl

theorem ModuleInfo.addSubModule_dependencies (info sub : ModuleInfo) :
    (info.addSubModule sub).dependencies = info.dependencies := rfl

theorem ModuleInfo.addSubModule_implicit (info sub : ModuleInfo) :
    (info.addSubModule sub).implicitDependencies = info.implicitDependencies := rfl

theorem ModuleInfo.addSubModule_rawModule (info sub : ModuleInfo) :
    (info.addSubModule sub).rawModule = info.rawModule := rfl

theorem ModuleInfo.addSubModule_subModules (info sub : ModuleInfo) :
    (info.addSubModule sub).subModules = info.subModules ++ [sub] := rfl

/-! ## Facts about `addSubModules` (the per-section fetch-and-attach loop) -/

theorem addSubModules_ok_name {pool : String → Except String ModuleInfo}
    {acc r : ModuleInfo} : ∀ {ms : List String},
    addSubModules pool acc ms = .ok r →
      r.name = acc.name ∧ r.dependencies = acc.dependencies ∧
      r.implicitDependencies = acc.implicitDependencies ∧ r.rawModule = acc.rawModule := by
  intro ms
  induction ms generalizing acc with
  | nil => intro h; cases h; exact ⟨rfl, rfl, rfl, rfl⟩
  | cons m rest ih =>
    intro h
    simp only [addSubModules] at h
    cases hp : pool m with
    | error e =>
      simp only [hp] at h
      exact Except.noConfusion h
    | ok sub =>
      simp only [hp] at h
      obtain ⟨h1, h2, h3, h4⟩ := ih h
      exact ⟨h1.trans (ModuleInfo.addSubModule_name acc sub),
        h2.trans (ModuleInfo.addSubModule_dependencies acc sub),
        h3.trans (ModuleInfo.addSubModule_implicit acc sub),
        h4.trans (ModuleInfo.addSubModule_rawModule acc sub)⟩

theorem addSubModules_ok_subModules {pool : String → Except String ModuleInfo}
    {acc r : ModuleInfo} : ∀ {ms : List String},
    addSubModules pool acc ms = .ok r →
      ∃ fetched : List ModuleInfo, r.subModules = acc.subModules ++ fetched := by
  intro ms
  induction ms generalizing acc with
  | nil => intro h; cases h; exact ⟨[], by simp⟩
  | cons m rest ih =>
    intro h
    simp only [addSubModules] at h
    cases hp : pool m with
    | error e =>
      simp only [hp] at h
      exact Except.noConfusion h
    | ok sub =>
      simp only [hp] at h
      obtain ⟨fetched, hf⟩ := ih h
      exact ⟨sub :: fetched, by simp [hf, ModuleInfo.addSubModule_subModules]⟩

/-- Evaluation of the fetch-and-attach loop under a pool that always
succeeds with `f m`. -/
theorem addSubModules_totalPool (f : String → ModuleInfo) :
    ∀ (ms : List String) (acc : ModuleInfo),
    addSubModules (fun m => .ok (f m)) acc ms =
      .ok (.mk acc.name acc.dependencies acc.implicitDependencies acc.rawModule
        (acc.subModules ++ ms.map f)) := by
  intro ms
  induction ms with
  | nil =>
    intro acc
    cases acc
    simp [addSubModules, ModuleInfo.name, ModuleInfo.dependencies,
      ModuleInfo.implicitDependencies, ModuleInfo.rawModule, ModuleInfo.subModules]
  | cons m rest ih =>
    intro acc
    simp only [addSubModules, ih, ModuleInfo.addSubModule]
    cases acc
    simp [ModuleInfo.name, ModuleInfo.dependencies, ModuleInfo.implicitDependencies,
      ModuleInfo.rawModule, ModuleInfo.subModules]

theorem addSubModules_error_char {pool : String → Except String ModuleInfo}
    {e : String} : ∀ {ms : List String} {acc : ModuleInfo},
    addSubModules pool acc ms = .error e → ∃ m ∈ ms, pool m = .error e := by
  intro ms
  induction ms with
  | nil => intro acc h; cases h
  | cons m rest ih =>
    intro acc h
    simp only [addSubModules] at h
    cases hp : pool m with
    | error e' =>
      rw [hp] at h
      cases h
      exact ⟨m, by simp, hp⟩
    | ok sub =>
      rw [hp] at h
      obtain ⟨m₂, hm₂, he₂⟩ := ih h
      exact ⟨m₂, by simp [hm₂], he₂⟩

theorem addSubModules_error_exists {pool : String → Except String ModuleInfo}
    {m : String} {e : String} : ∀ {ms : List String} {acc : ModuleInfo},
    m ∈ ms → pool m = .error e →
    ∃ e₂, addSubModules pool acc ms = .error e₂ := by
  intro ms
  induction ms with
  | nil => intro acc h; cases h
  | cons m₀ rest ih =>
    intro acc hm he
    simp only [addSubModules]
    cases hp : pool m₀ with
    | error e' => exact ⟨e', rfl⟩
    | ok sub =>
      rcases List.mem_cons.mp hm with rfl | hm'
      · rw [hp] at he; cases he
      · exact ih hm' he

theorem ModuleInfo.setRawModule_name (info : ModuleInfo) (b : Bool) :
    (info.setRawModule b).name = info.name := rfl

theorem ModuleInfo.setRawModule_dependencies (info : ModuleInfo) (b : Bool) :
    (info.setRawModule b).dependencies = info.dependencies := rfl

theorem ModuleInfo.setRawModule_rawModule (info : ModuleInfo) (b : Bool) :
    (info.setRawModule b).rawModule = b := rfl

theorem foldlAddDep_name : ∀ (ms : List String) (acc : ModuleInfo),
    (ms.foldl (fun info m => info.addDependency m) acc).name = acc.name := by
  intro ms
  induction ms with
  | nil => intro acc; rfl
  | cons m rest ih =>
    intro acc
    simp only [List.foldl_cons, ih, ModuleInfo.addDependency_name]

theorem foldlAddDep_rawModule : ∀ (ms : List String) (acc : ModuleInfo),
    (ms.foldl (fun info m => info.addDependency m) acc).rawModule = acc.rawModule := by
  intro ms
  induction ms with
  | nil => intro acc; rfl
  | cons m rest ih =>
    intro acc
    simp only [List.foldl_cons, ih, ModuleInfo.addDependency_rawModule]

theorem foldlAddDep_implicit : ∀ (ms : List String) (acc : ModuleInfo),
    (ms.foldl (fun info m => info.addDependency m) acc).implicitDependencies =
      acc.implicitDependencies := by
  intro ms
  induction ms with
  | nil => intro acc; rfl
  | cons m rest ih =>
    intro acc
    simp only [List.foldl_cons, ih, ModuleInfo.addDependency_implicit]

theorem foldlAddDep_subModules : ∀ (ms : List String) (acc : ModuleInfo),
    (ms.foldl (fun info m => info.addDependency m) acc).subModules = acc.subModules := by
  intro ms
  induction ms with
  | nil => intro acc; rfl
  | cons m rest ih =>
    intro acc
    simp only [List.foldl_cons, ih, ModuleInfo.addDependency_subModules]

/-! ## Facts about `resolveSection` and the section chain -/

theorem resolveSection_ok_name {pool : String → Except String ModuleInfo}
    {acc r : ModuleInfo} {s : Section}
    (h : resolveSection pool acc s = .ok r) : r.name = acc.name := by
  obtain ⟨mode, modules⟩ := s
  cases mode with
  | Provided =>
    simp [resolveSection] at h
    subst h
    rfl
  | Require =>
    simp [resolveSection] at h
    subst h
    exact foldlAddDep_name modules acc
  | Raw =>
    simp only [resolveSection] at h
    simp at h
    split at h
    · exact (addSubModules_ok_name h).1.trans (ModuleInfo.setRawModule_name acc true)
    · exact (addSubModules_ok_name h).1
  | Preload =>
    simp [resolveSection] at h
    exact (addSubModules_ok_name h).1

theorem resolveSection_ok_rawModule {pool : String → Except String ModuleInfo}
    {acc r : ModuleInfo} {s : Section}
    (h : resolveSection pool acc s = .ok r) :
    r.rawModule = (acc.rawModule || (decide (s.mode = .Raw) && !s.modules.isEmpty)) := by
  obtain ⟨mode, modules⟩ := s
  cases mode with
  | Provided =>
    simp [resolveSection] at h
    subst h
    simp
  | Require =>
    simp [resolveSection] at h
    subst h
    simp [foldlAddDep_rawModule modules acc]
  | Raw =>
    simp only [resolveSection] at h
    simp at h
    split at h
    · rename_i hne
      subst hne
      rw [(addSubModules_ok_name h).2.2.2]
      simp
    · rename_i hne
      rw [(addSubModules_ok_name h).2.2.2, ModuleInfo.setRawModule_rawModule]
      cases modules with
      | nil => exact absurd rfl hne
      | cons x xs => simp
  | Preload =>
    simp [resolveSection] at h
    rw [(addSubModules_ok_name h).2.2.2]
    simp

theorem resolveSection_error_char {pool : String → Except String ModuleInfo}
    {acc : ModuleInfo} {s : Section} {e : String}
    (h : resolveSection pool acc s = .error e) :
    (s.mode = .Raw ∨ s.mode = .Preload) ∧ ∃ m ∈ s.modules, pool m = .error e := by
  obtain ⟨mode, modules⟩ := s
  cases mode with
  | Provided => simp [resolveSection] at h
  | Require => simp [resolveSection] at h
  | Raw =>
    refine ⟨.inl rfl, ?_⟩
    simp only [resolveSection] at h
    simp at h
    split at h
    · exact addSubModules_error_char h
    · exact addSubModules_error_char h
  | Preload =>
    refine ⟨.inr rfl, ?_⟩
    simp [resolveSection] at h
    obtain ⟨m, hm, he⟩ := addSubModules_error_char h
    exact ⟨m, mem_sortStrings.mp hm, he⟩

theorem resolveSection_error_exists {pool : String → Except String ModuleInfo}
    {acc : ModuleInfo} {s : Section} {m : String} {e : String}
    (hmode : s.mode = .Raw ∨ s.mode = .Preload) (hm : m ∈ s.modules)
    (he : pool m = .error e) :
    ∃ e₂, resolveSection pool acc s = .error e₂ := by
  obtain ⟨mode, modules⟩ := s
  cases mode with
  | Provided => simp at hmode
  | Require => simp at hmode
  | Raw =>
    simp only [resolveSection]
    simp only [Section.mode, Section.modules] at hm ⊢
    obtain ⟨e₂, h₂⟩ := @addSubModules_error_exists pool m e modules
      (if SectionType.Raw = SectionType.Raw ∧ modules.length ≠ 0
        then acc.setRawModule true else acc) hm he
    refine ⟨e₂, ?_⟩
    simpa using h₂
  | Preload =>
    simp only [resolveSection]
    simp only [Section.mode, Section.modules] at hm ⊢
    obtain ⟨e₂, h₂⟩ := @addSubModules_error_exists pool m e (sortStrings modules)
      acc (mem_sortStrings.mpr hm) he
    refine ⟨e₂, ?_⟩
    simpa using h₂

theorem lookup_cons (a : String) (b : Bool) (rest : List (String × Bool)) (k : String) :
    List.lookup k ((a, b) :: rest) = if k = a then some b else List.lookup k rest := by
  by_cases hk : k = a
  · subst hk
    simp [List.lookup]
  · have hb : (k == a) = false := by simpa using hk
    simp [List.lookup, hb, hk]

theorem lookup_append (l₁ l₂ : List (String × Bool)) (k : String) :
    (l₁ ++ l₂).lookup k = ((l₁.lookup k).or (l₂.lookup k)) := by
  induction l₁ with
  | nil => simp [List.lookup]
  | cons p rest ih =>
    obtain ⟨a, b⟩ := p
    rw [List.cons_append, lookup_cons, lookup_cons]
    by_cases hk : k = a
    · simp [hk]
    · simp [hk, ih]

theorem lookup_setFlag (l : List (String × Bool)) (dep k : String) :
    ((l.map fun p => if p.1 = dep then (p.1, false) else p).lookup k) =
      if k = dep then (l.lookup k).map (fun _ => false) else l.lookup k := by
  induction l with
  | nil => simp [List.lookup]
  | cons p rest ih =>
    obtain ⟨a, b⟩ := p
    simp only [List.map_cons]
    by_cases had : a = dep
    · subst had
      rw [if_pos rfl, lookup_cons, lookup_cons]
      by_cases hk : k = a
      · simp [hk]
      · simp [hk, ih]
    · rw [if_neg had, lookup_cons, lookup_cons]
      by_cases hk : k = a
      · subst hk
        have hkd : ¬k = dep := had
        simp [hkd]
      · simp [hk, ih]

theorem addDependency_self (info : ModuleInfo) (dep : String) (c : Bool)
    (h : info.name = dep) : info.addDependency dep c = info := by
  simp [ModuleInfo.addDependency, h]

theorem addDependency_lookup (info : ModuleInfo) (dep : String)
    (hne : info.name ≠ dep) (m : String) :
    (info.addDependency dep).dependencies.lookup m =
      if m = dep then some false else info.dependencies.lookup m := by
  cases info with
  | mk n d i r s =>
    simp only [ModuleInfo.name] at hne
    simp only [ModuleInfo.addDependency, ModuleInfo.name, ModuleInfo.dependencies,
      hne, if_false]
    cases hl : List.lookup dep d with
    | none =>
      simp only [hl]
      rw [lookup_append]
      by_cases hm : m = dep
      · subst hm
        rw [hl, lookup_cons, if_pos rfl]
        simp
      · rw [lookup_cons, if_neg hm]
        simp [hm]
    | some c =>
      cases c with
      | true =>
        simp only [hl]
        simp only [Bool.false_eq_true, if_false]
        rw [lookup_setFlag]
        by_cases hm : m = dep
        · subst hm
          simp [hl]
        · simp [hm]
      | false =>
        simp only [hl]
        by_cases hm : m = dep
        · subst hm
          simp [hl]
        · simp [hm]

theorem addDependency_default_lookup (info : ModuleInfo) (dep m : String) :
    (info.addDependency dep).dependencies.lookup m =
      if m = dep ∧ dep ≠ info.name then some false
      else info.dependencies.lookup m := by
  by_cases hself : info.name = dep
  · rw [addDependency_self info dep false hself]
    have hc : ¬(m = dep ∧ dep ≠ info.name) := by
      rintro ⟨rfl, hd⟩
      exact hd hself.symm
    simp [hc]
  · rw [addDependency_lookup info dep hself m]
    by_cases hm : m = dep
    · simp [hm, Ne.symm hself]
    · simp [hm]

theorem foldlAddDep_lookup : ∀ (ms : List String) (acc : ModuleInfo) (m : String),
    (ms.foldl (fun info m' => info.addDependency m') acc).dependencies.lookup m =
      if m ∈ ms ∧ m ≠ acc.name then some false
      else acc.dependencies.lookup m := by
  intro ms
  induction ms with
  | nil =>
    intro acc m
    simp
  | cons m₀ rest ih =>
    intro acc m
    rw [List.foldl_cons, ih, ModuleInfo.addDependency_name, addDependency_default_lookup]
    by_cases hmem : m ∈ rest ∧ m ≠ acc.name
    · rw [if_pos hmem]
      have hc : m ∈ m₀ :: rest ∧ m ≠ acc.name :=
        ⟨List.mem_cons_of_mem m₀ hmem.1, hmem.2⟩
      rw [if_pos hc]
    · rw [if_neg hmem]
      by_cases hm : m = m₀ ∧ m₀ ≠ acc.name
      · obtain ⟨rfl, hname⟩ := hm
        rw [if_pos ⟨rfl, hname⟩, if_pos ⟨List.mem_cons_self m rest, hname⟩]
      · rw [if_neg hm]
        have hc : ¬(m ∈ m₀ :: rest ∧ m ≠ acc.name) := by
          rintro ⟨hmc, hname⟩
          rcases List.mem_cons.mp hmc with rfl | hmr
          · exact hm ⟨rfl, hname⟩
          · exact hmem ⟨hmr, hname⟩
        rw [if_neg hc]

theorem resolveSections_ok_name {pool : String → Except String ModuleInfo}
    {r : ModuleInfo} : ∀ {l : List Section} {acc : ModuleInfo},
    resolveSections pool acc l = .ok r → r.name = acc.name := by
  intro l
  induction l with
  | nil => intro acc h; cases h; rfl
  | cons s rest ih =>
    intro acc h
    simp only [resolveSections] at h
    cases hs : resolveSection pool acc s with
    | error e =>
      simp only [hs] at h
      exact Except.noConfusion h
    | ok acc' =>
      simp only [hs] at h
      exact (ih h).trans (resolveSection_ok_name hs)

theorem resolveSections_ok_rawModule {pool : String → Except String ModuleInfo}
    {r : ModuleInfo} : ∀ {l : List Section} {acc : ModuleInfo},
    resolveSections pool acc l = .ok r →
    r.rawModule =
      (acc.rawModule || l.any fun s => decide (s.mode = .Raw) && !s.modules.isEmpty) := by
  intro l
  induction l with
  | nil => intro acc h; cases h; simp
  | cons s rest ih =>
    intro acc h
    simp only [resolveSections] at h
    cases hs : resolveSection pool acc s with
    | error e =>
      simp only [hs] at h
      exact Except.noConfusion h
    | ok acc' =>
      simp only [hs] at h
      rw [ih h, resolveSection_ok_rawModule hs]
      simp [Bool.or_assoc]

theorem resolveSections_error_char {pool : String → Except String ModuleInfo}
    {e : String} : ∀ {l : List Section} {acc : ModuleInfo},
    resolveSections pool acc l = .error e →
    ∃ s ∈ l, (s.mode = .Raw ∨ s.mode = .Preload) ∧ ∃ m ∈ s.modules, pool m = .error e := by
  intro l
  induction l with
  | nil => intro acc h; exact Except.noConfusion h
  | cons s rest ih =>
    intro acc h
    simp only [resolveSections] at h
    cases hs : resolveSection pool acc s with
    | error e' =>
      simp only [hs] at h
      cases h
      obtain ⟨hmode, m, hm, he⟩ := resolveSection_error_char hs
      exact ⟨s, by simp, hmode, m, hm, he⟩
    | ok acc' =>
      simp only [hs] at h
      obtain ⟨s₂, hs₂, hmode, m, hm, he⟩ := ih h
      exact ⟨s₂, by simp [hs₂], hmode, m, hm, he⟩

theorem resolveSections_error_exists {pool : String → Except String ModuleInfo}
    {s : Section} {m : String} {e : String}
    (hmode : s.mode = .Raw ∨ s.mode = .Preload) (hm : m ∈ s.modules)
    (he : pool m = .error e) : ∀ {l : List Section} {acc : ModuleInfo},
    s ∈ l → ∃ e₂, resolveSections pool acc l = .error e₂ := by
  intro l
  induction l with
  | nil => intro acc h; cases h
  | cons s₀ rest ih =>
    intro acc hmem
    simp only [resolveSections]
    cases hs : resolveSection pool acc s₀ with
    | error e' => exact ⟨e', rfl⟩
    | ok acc' =>
      rcases List.mem_cons.mp hmem with rfl | hmem'
      · obtain ⟨e₂, h₂⟩ := @resolveSection_error_exists pool acc s m e hmode hm he
        rw [hs] at h₂
        exact Except.noConfusion h₂
      · exact ih hmem'

/-! ## Facts about the instrumented section chain -/

theorem resolveSectionsTraced_fst (pool : String → Except String ModuleInfo) :
    ∀ (l : List Section) (acc : ModuleInfo),
    (resolveSectionsTraced pool acc l).1 = resolveSections pool acc l := by
  intro l
  induction l with
  | nil => intro acc; rfl
  | cons s rest ih =>
    intro acc
    simp only [resolveSectionsTraced, resolveSections, resolveSectionTraced]
    cases hs : resolveSection pool acc s with
    | error e => rfl
    | ok acc' => exact ih acc'

theorem resolveSectionsTraced_sections (pool : String → Except String ModuleInfo) :
    ∀ (l : List Section) (acc : ModuleInfo),
    (resolveSectionsTraced pool acc l).2.1 = l := by
  intro l
  induction l with
  | nil => intro acc; rfl
  | cons s rest ih =>
    intro acc
    simp only [resolveSectionsTraced, resolveSectionTraced]
    cases hs : resolveSection pool acc s with
    | error e => rfl
    | ok acc' => simp [ih acc']

theorem resolveSectionsTraced_calls (pool : String → Except String ModuleInfo) :
    ∀ (l : List Section) (acc : ModuleInfo),
    ∃ k, (resolveSectionsTraced pool acc l).2.2 =
      ((l.take k).map sectionPoolFetches).flatten := by
  intro l
  induction l with
  | nil => intro acc; exact ⟨0, rfl⟩
  | cons s rest ih =>
    intro acc
    simp only [resolveSectionsTraced, resolveSectionTraced]
    cases hs : resolveSection pool acc s with
    | error e =>
      refine ⟨1, ?_⟩
      simp
    | ok acc' =>
      obtain ⟨k, hk⟩ := ih acc'
      refine ⟨k + 1, ?_⟩
      simp [hk]

/-! ## Facts about the analyzer's synchronous traversal -/

mutual
/-- The net effect of the synchronous traversal of one node: the pending
lookups of the subtree are appended to `this.promises`; the conditional
flag is restored and no other instance field (`pool`, `busy`, `info`) is
touched — in particular the traversal itself consults neither the pool nor
the info, and it visits every child unconditionally. -/
theorem _analyzeNode_spec (n : XmlNode) (a : Analyzer) :
    _analyzeNode n a = { a with promises := a.promises ++ nodeLookups n } := by
  cases n with
  | mk uri localName attrList children =>
    simp only [_analyzeNode, nodeLookups]
    by_cases h1 : uri = TEMPLATING_NAMESPACE
    · by_cases h2 : isTemplatingConditionalTag localName
      · simp [h1, h2, _analyzeChildren_spec]
      · simp [h1, h2, _analyzeChildren_spec]
    · by_cases h2 : uri = XHTML_NAMESPACE ∨ uri = SVG_NAMESPACE
      · simp [h1, h2, _analyzeChildren_spec]
      · by_cases h3 : isLibraryNamespace uri
        · by_cases h4 : FRAGMENTDEFINITION_MODULE =
              fromUI5LegacyName ((if uri = "" then "" else uri ++ ".") ++ localName)
          · simp [h1, h2, h3, h4, _analyzeChildren_spec]
          · simp [h1, h2, h3, h4, _analyzeChildren_spec]
        · simp [h1, h2, h3, _analyzeChildren_spec]

/-- The net effect of traversing a child list. -/
theorem _analyzeChildren_spec (l : XmlNodeList) (a : Analyzer) :
    _analyzeChildren l a = { a with promises := a.promises ++ listLookups l } := by
  cases l with
  | nil => simp [_analyzeChildren, listLookups]
  | cons c cs =>
    simp only [_analyzeChildren, listLookups, _analyzeNode_spec c a,
      _analyzeChildren_spec cs]
    simp
end

/-- A failed `findResource` lookup leaves the analyzer untouched: its
rejection handler ignores the error, so no dependency is recorded and no
error escapes. -/
theorem _runLookup_not_found {a : Analyzer} {pl : PendingLookup}
    (h : a.pool pl.moduleName = false) : _runLookup a pl = a := by
  simp [_runLookup, h]

theorem _analyze_ok_eq {a : Analyzer} {root : XmlNode} {info : ModuleInfo}
    {isFragment : Bool} (h : a.busy = false) :
    _analyze a (.ok root) info isFragment =
      ⟨.resolved (analyzeRun a root info isFragment).info,
        { analyzeRun a root info isFragment with busy := false },
        (analyzeRun a root info isFragment).info⟩ := by
  simp [_analyze, analyzeRun, h]

theorem resolveSection_congr {pool : String → Except String ModuleInfo}
    {s₁ s₂ : Section} (h : SectionEquiv s₁ s₂) (acc : ModuleInfo) :
    resolveSection pool acc s₁ = resolveSection pool acc s₂ := by
  obtain ⟨hmode, hperm, hcase⟩ := h
  rcases hcase with hp | heq
  · obtain ⟨mode₁, ms₁⟩ := s₁
    obtain ⟨mode₂, ms₂⟩ := s₂
    simp only [Section.mode] at hmode hp
    simp only [Section.modules] at hperm
    subst hp
    subst hmode
    simp only [resolveSection]
    simp [sortStrings_eq_of_perm hperm]
  · have hs : s₁ = s₂ := by
      obtain ⟨mode₁, ms₁⟩ := s₁
      obtain ⟨mode₂, ms₂⟩ := s₂
      simp only [Section.mode] at hmode
      simp only [Section.modules] at heq
      rw [hmode, heq]
    rw [hs]

theorem resolveSections_congr {pool : String → Except String ModuleInfo} :
    ∀ {l₁ l₂ : List Section}, List.Forall₂ SectionEquiv l₁ l₂ →
    ∀ acc : ModuleInfo, resolveSections pool acc l₁ = resolveSections pool acc l₂ := by
  intro l₁ l₂ h
  induction h with
  | nil => intro acc; rfl
  | cons hs ht ih =>
    intro acc
    simp only [resolveSections]
    rw [resolveSection_congr hs acc]
    cases resolveSection pool acc _ with
    | error e => rfl
    | ok acc' => exact ih acc'

/-! ## Per-mode evaluation equations for `resolveSection` -/

theorem resolveSections_nil (pool : String → Except String ModuleInfo)
    (acc : ModuleInfo) : resolveSections pool acc [] = .ok acc := rfl

theorem resolveSections_cons (pool : String → Except String ModuleInfo)
    (acc : ModuleInfo) (s : Section) (rest : List Section) :
    resolveSections pool acc (s :: rest) =
      match resolveSection pool acc s with
      | .error e => .error e
      | .ok acc' => resolveSections pool acc' rest := rfl

theorem resolveSection_provided (pool : String → Except String ModuleInfo)
    (acc : ModuleInfo) (ms : List String) :
    resolveSection pool acc ⟨.Provided, ms⟩ = .ok acc := by
  simp [resolveSection]

theorem resolveSection_require (pool : String → Except String ModuleInfo)
    (acc : ModuleInfo) (ms : List String) :
    resolveSection pool acc ⟨.Require, ms⟩ =
      .ok (ms.foldl (fun info m => info.addDependency m) acc) := by
  simp [resolveSection]

theorem resolveSection_raw (pool : String → Except String ModuleInfo)
    (acc : ModuleInfo) (ms : List String) :
    resolveSection pool acc ⟨.Raw, ms⟩ =
      addSubModules pool (if ms.isEmpty then acc else acc.setRawModule true) ms := by
  cases ms with
  | nil => simp [resolveSection]
  | cons x xs => simp [resolveSection]

theorem resolveSection_preload (pool : String → Except String ModuleInfo)
    (acc : ModuleInfo) (ms : List String) :
    resolveSection pool acc ⟨.Preload, ms⟩ = addSubModules pool acc (sortStrings ms) := by
  simp [resolveSection]

/-! ## Claims -/

/-- C2: for every bundle definition containing a Preload section, resolution
sorts that section's module list into ascending order before fetching and
attaches each fetched Module Info as a submodule in the sorted order;
consequently, two bundle definitions whose Preload sections list the same
modules in different declared orders (and are otherwise equal) resolve to
equal Module Infos. -/
theorem claim_C2 :
    (∀ (n : String) (mods : List String) (f : String → ModuleInfo),
      createModuleInfo ⟨n, [⟨.Preload, mods⟩]⟩ (fun m => .ok (f m)) =
        .ok (.mk n [] [] false ((sortStrings mods).map f))) ∧
    (∀ l : List String,
      List.Sorted strLeRel (sortStrings l) ∧ (sortStrings l).Perm l) ∧
    (∀ (bd₁ bd₂ : BundleDefinition) (pool : String → Except String ModuleInfo),
      bd₁.name = bd₂.name → List.Forall₂ SectionEquiv bd₁.sections bd₂.sections →
      createModuleInfo bd₁ pool = createModuleInfo bd₂ pool) := by
  refine ⟨?_, fun l => ⟨sortStrings_sorted l, sortStrings_perm l⟩, ?_⟩
  · intro n mods f
    unfold createModuleInfo
    rw [resolveSections_cons, resolveSection_preload, addSubModules_totalPool]
    simp [ModuleInfo.empty, ModuleInfo.setName, ModuleInfo.name, ModuleInfo.dependencies,
      ModuleInfo.implicitDependencies, ModuleInfo.rawModule, ModuleInfo.subModules,
      resolveSections_nil]
  · intro bd₁ bd₂ pool hname hsec
    unfold createModuleInfo
    rw [hname]
    exact resolveSections_congr hsec _

/-- C2 witness: a concrete Preload bundle resolves with submodules in sorted
order, and permuting the declared Preload order yields the same resolution. -/
theorem claim_C2_witness :
    List.Forall₂ SectionEquiv
      [Section.mk .Preload ["b.js", "a.js"]] [Section.mk .Preload ["a.js", "b.js"]] ∧
    createModuleInfo ⟨"x.js", [⟨.Preload, ["b.js", "a.js"]⟩]⟩
        (fun m => .ok (.mk m [] [] false [])) =
      createModuleInfo ⟨"x.js", [⟨.Preload, ["a.js", "b.js"]⟩]⟩
        (fun m => .ok (.mk m [] [] false [])) := by
  have hperm : List.Perm ["b.js", "a.js"] ["a.js", "b.js"] :=
    List.Perm.swap "a.js" "b.js" []
  have hf : List.Forall₂ SectionEquiv
      [Section.mk .Preload ["b.js", "a.js"]] [Section.mk .Preload ["a.js", "b.js"]] :=
    .cons ⟨rfl, hperm, .inl rfl⟩ .nil
  exact ⟨hf, claim_C2.2.2 ⟨"x.js", [⟨.Preload, ["b.js", "a.js"]⟩]⟩
    ⟨"x.js", [⟨.Preload, ["a.js", "b.js"]⟩]⟩ _ rfl hf⟩

set_option maxRecDepth 4096 in
/-- C3: `containsCore` holds exactly when some Raw or Require section lists
the designated core module, `containsGlobal` exactly when some Raw section
lists the designated legacy global module, and `executes name` exactly when
some Raw or Require section lists `name`; all three are pure functions of
the current sections. -/
theorem claim_C3 (bd : BundleDefinition) (name : String) :
    (containsCore bd = true ↔
      ∃ s ∈ bd.sections, (s.mode = .Raw ∨ s.mode = .Require) ∧
        MODULE__SAP_UI_CORE_CORE ∈ s.modules) ∧
    (containsGlobal bd = true ↔
      ∃ s ∈ bd.sections, s.mode = .Raw ∧ MODULE__JQUERY_SAP_GLOBAL ∈ s.modules) ∧
    (executes bd name = true ↔
      ∃ s ∈ bd.sections, (s.mode = .Raw ∨ s.mode = .Require) ∧ name ∈ s.modules) := by
  refine ⟨?_, ?_, ?_⟩
  · unfold containsCore
    rw [List.any_eq_true]
    constructor
    · rintro ⟨s, hs, hp⟩
      simp at hp
      exact ⟨s, hs, hp.1, hp.2⟩
    · rintro ⟨s, hs, hmode, hmem⟩
      refine ⟨s, hs, ?_⟩
      simp [hmem]
      exact hmode
  · unfold containsGlobal
    rw [List.any_eq_true]
    constructor
    · rintro ⟨s, hs, hp⟩
      simp at hp
      exact ⟨s, hs, hp.1, hp.2⟩
    · rintro ⟨s, hs, hmode, hmem⟩
      refine ⟨s, hs, ?_⟩
      simp [hmem, hmode]
  · unfold executes
    rw [List.any_eq_true]
    constructor
    · rintro ⟨s, hs, hp⟩
      simp at hp
      exact ⟨s, hs, hp.1, hp.2⟩
    · rintro ⟨s, hs, hmode, hmem⟩
      refine ⟨s, hs, ?_⟩
      simp [hmem]
      exact hmode

/-- C4: the resolved Module Info is marked raw exactly when some Raw section
lists at least one module, and a Raw section's modules are attached as
submodules in their declared order (no reordering). -/
theorem claim_C4 :
    (∀ (bd : BundleDefinition) (pool : String → Except String ModuleInfo)
      (info : ModuleInfo), createModuleInfo bd pool = .ok info →
      (info.rawModule = true ↔
        ∃ s ∈ bd.sections, s.mode = .Raw ∧ s.modules ≠ [])) ∧
    (∀ (n : String) (mods : List String) (f : String → ModuleInfo),
      createModuleInfo ⟨n, [⟨.Raw, mods⟩]⟩ (fun m => .ok (f m)) =
        .ok (.mk n [] [] (!mods.isEmpty) (mods.map f))) := by
  constructor
  · intro bd pool info h
    rw [resolveSections_ok_rawModule h]
    simp [ModuleInfo.empty, ModuleInfo.setName, ModuleInfo.rawModule,
      List.any_eq_true, List.isEmpty_iff]
  · intro n mods f
    unfold createModuleInfo
    rw [resolveSections_cons, resolveSection_raw, addSubModules_totalPool]
    cases mods with
    | nil =>
      simp [ModuleInfo.empty, ModuleInfo.setName, ModuleInfo.name,
        ModuleInfo.dependencies, ModuleInfo.implicitDependencies, ModuleInfo.rawModule,
        ModuleInfo.subModules, resolveSections_nil]
    | cons x xs =>
      simp [ModuleInfo.empty, ModuleInfo.setName, ModuleInfo.setRawModule,
        ModuleInfo.name, ModuleInfo.dependencies, ModuleInfo.implicitDependencies,
        ModuleInfo.rawModule, ModuleInfo.subModules, resolveSections_nil]

/-- C4 witness: a concrete bundle with one non-empty Raw section resolves to
an info marked raw, with the Raw modules attached in declared order. -/
theorem claim_C4_witness :
    createModuleInfo ⟨"x.js", [⟨.Raw, ["z.js", "y.js"]⟩]⟩
        (fun m => .ok (.mk m [] [] false [])) =
      .ok (.mk "x.js" [] [] true
        [.mk "z.js" [] [] false [], .mk "y.js" [] [] false []]) ∧
    ((ModuleInfo.mk "x.js" [] [] true
        [.mk "z.js" [] [] false [], .mk "y.js" [] [] false []]).rawModule = true ↔
      ∃ s ∈ (BundleDefinition.mk "x.js" [⟨.Raw, ["z.js", "y.js"]⟩]).sections,
        s.mode = .Raw ∧ s.modules ≠ []) :=
  ⟨rfl, claim_C4.1 ⟨"x.js", [⟨.Raw, ["z.js", "y.js"]⟩]⟩
    (fun m => .ok (.mk m [] [] false []))
    (.mk "x.js" [] [] true [.mk "z.js" [] [] false [], .mk "y.js" [] [] false []]) rfl⟩

/-- C5 counterexample: the claim says a Require section "adds every listed
module as an unconditional dependency", but a listed module equal to the
bundle's own name is dropped by the Module Info self-reference invariant:
resolving the bundle `a.js` whose Require section lists `a.js` yields an
info with no dependency on `a.js` at all. -/
theorem claim_C5_counterexample :
    ∃ info, createModuleInfo ⟨"a.js", [⟨.Require, ["a.js"]⟩]⟩
        (fun m => .ok (.mk m [] [] false [])) = .ok info ∧
      info.dependencies.lookup "a.js" = none :=
  ⟨.mk "a.js" [] [] false [], rfl, rfl⟩

/-- C5 (amended): sections are processed strictly in declared order (the
trace of pool lookups is a per-section concatenation of a prefix of the
declared section list); a Provided section contributes nothing — no
dependency, no submodule, no pool call; a Require section adds every listed
module, except one equal to the bundle's own name, as an unconditional
dependency, with no pool call and no submodule entry. -/
theorem claim_C5 :
    (∀ (pool : String → Except String ModuleInfo) (acc : ModuleInfo) (s : Section),
      s.mode = .Provided → resolveSectionTraced pool acc s = (.ok acc, s, [])) ∧
    (∀ (pool : String → Except String ModuleInfo) (acc : ModuleInfo) (s : Section),
      s.mode = .Require →
      (resolveSectionTraced pool acc s).2.2 = [] ∧
      ∃ r, (resolveSectionTraced pool acc s).1 = .ok r ∧
        r.name = acc.name ∧ r.implicitDependencies = acc.implicitDependencies ∧
        r.rawModule = acc.rawModule ∧ r.subModules = acc.subModules ∧
        ∀ m, r.dependencies.lookup m =
          if m ∈ s.modules ∧ m ≠ acc.name then some false
          else acc.dependencies.lookup m) ∧
    (∀ (bd : BundleDefinition) (pool : String → Except String ModuleInfo),
      (createModuleInfoTraced bd pool).1 = createModuleInfo bd pool ∧
      ∃ k, (createModuleInfoTraced bd pool).2.2 =
        ((bd.sections.take k).map sectionPoolFetches).flatten) := by
  refine ⟨?_, ?_, ?_⟩
  · intro pool acc s h
    obtain ⟨mode, ms⟩ := s
    simp only [Section.mode] at h
    subst h
    simp [resolveSectionTraced, resolveSection_provided, sectionPoolFetches]
  · intro pool acc s h
    obtain ⟨mode, ms⟩ := s
    simp only [Section.mode] at h
    subst h
    refine ⟨by simp [resolveSectionTraced, sectionPoolFetches], ?_⟩
    refine ⟨ms.foldl (fun info m => info.addDependency m) acc, ?_, ?_, ?_, ?_, ?_, ?_⟩
    · simp [resolveSectionTraced, resolveSection_require]
    · exact foldlAddDep_name ms acc
    · exact foldlAddDep_implicit ms acc
    · exact foldlAddDep_rawModule ms acc
    · exact foldlAddDep_subModules ms acc
    · intro m
      exact foldlAddDep_lookup ms acc m
  · intro bd pool
    exact ⟨resolveSectionsTraced_fst pool bd.sections _,
      resolveSectionsTraced_calls pool bd.sections _⟩

/-- C5 witness: concrete instances of the amended claim — an inert Provided
section, and a Require section recording its listed module unconditionally
with no pool call. -/
theorem claim_C5_witness :
    (Section.mk .Provided ["p.js"]).mode = .Provided ∧
    resolveSectionTraced (fun m => .ok (.mk m [] [] false []))
        (.mk "x.js" [] [] false []) ⟨.Provided, ["p.js"]⟩ =
      (.ok (.mk "x.js" [] [] false []), ⟨.Provided, ["p.js"]⟩, []) ∧
    (Section.mk .Require ["r.js"]).mode = .Require ∧
    (resolveSectionTraced (fun m => .ok (.mk m [] [] false []))
        (.mk "x.js" [] [] false []) ⟨.Require, ["r.js"]⟩).2.2 = [] :=
  ⟨rfl, claim_C5.1 _ _ _ rfl, rfl,
    (claim_C5.2.1 (fun m => .ok (.mk m [] [] false []))
      (.mk "x.js" [] [] false []) ⟨.Require, ["r.js"]⟩ rfl).1⟩

/-- C6: if the pool's `getModuleInfo` rejects for a module listed in a Raw
or Preload section, `createModuleInfo` rejects — with the pool failure of
some Raw/Preload-listed module — and no resolved Module Info is
delivered. -/
theorem claim_C6 (bd : BundleDefinition) (pool : String → Except String ModuleInfo)
    (s : Section) (m : String) (e : String)
    (hs : s ∈ bd.sections) (hmode : s.mode = .Raw ∨ s.mode = .Preload)
    (hm : m ∈ s.modules) (he : pool m = .error e) :
    ∃ e₂ s₂ m₂, createModuleInfo bd pool = .error e₂ ∧ s₂ ∈ bd.sections ∧
      (s₂.mode = .Raw ∨ s₂.mode = .Preload) ∧ m₂ ∈ s₂.modules ∧
      pool m₂ = .error e₂ := by
  obtain ⟨e₂, h₂⟩ :=
    @resolveSections_error_exists pool s m e hmode hm he bd.sections
      (ModuleInfo.empty.setName bd.name) hs
  obtain ⟨s₂, hs₂, hmode₂, m₂, hm₂, he₂⟩ := resolveSections_error_char h₂
  exact ⟨e₂, s₂, m₂, h₂, hs₂, hmode₂, hm₂, he₂⟩

/-- C6 witness: a concrete Preload bundle whose only module's pool fetch
rejects makes resolution reject with that failure. -/
theorem claim_C6_witness :
    (Section.mk .Preload ["x.js"]) ∈
      (BundleDefinition.mk "b.js" [⟨.Preload, ["x.js"]⟩]).sections ∧
    "x.js" ∈ (Section.mk .Preload ["x.js"]).modules ∧
    (∃ e₂ s₂ m₂, createModuleInfo ⟨"b.js", [⟨.Preload, ["x.js"]⟩]⟩
        (fun _ => .error "nope") = .error e₂ ∧
      s₂ ∈ (BundleDefinition.mk "b.js" [⟨.Preload, ["x.js"]⟩]).sections ∧
      (s₂.mode = .Raw ∨ s₂.mode = .Preload) ∧ m₂ ∈ s₂.modules ∧
      (fun _ : String => (.error "nope" : Except String ModuleInfo)) m₂ =
        .error e₂) :=
  ⟨by simp, by simp,
    claim_C6 ⟨"b.js", [⟨.Preload, ["x.js"]⟩]⟩ (fun _ => .error "nope")
      ⟨.Preload, ["x.js"]⟩ "x.js" "nope" (by simp) (.inr rfl) (by simp) rfl⟩

/-- C10: `createModuleInfo` never mutates the bundle definition: the section
list after the (instrumented) run is exactly the declared one — the Preload
sort works on a copy — and the run is a pure function of the definition and
pool that builds its result from a fresh, empty Module Info carrying only
the bundle name. -/
theorem claim_C10 :
    (∀ (bd : BundleDefinition) (pool : String → Except String ModuleInfo),
      (createModuleInfoTraced bd pool).2.1 = bd.sections) ∧
    (∀ (bd : BundleDefinition) (pool : String → Except String ModuleInfo),
      (createModuleInfoTraced bd pool).1 = createModuleInfo bd pool) ∧
    (∀ (n : String) (pool : String → Except String ModuleInfo),
      createModuleInfo ⟨n, []⟩ pool = .ok (.mk n [] [] false [])) := by
  refine ⟨?_, ?_, ?_⟩
  · intro bd pool
    exact resolveSectionsTraced_sections pool bd.sections _
  · intro bd pool
    exact resolveSectionsTraced_fst pool bd.sections _
  · intro n pool
    rfl

/-- C1: the spec requires that a pool-confirmed candidate inside a
templating `if`/`repeat` subtree be recorded as a conditional dependency
(its §8 end-to-end example: a fragment whose `if` child wraps a Button);
the code instead records it as unconditional, because `_addDependency` runs
inside the deferred `findResource` callback, after the synchronous
traversal has already restored `this.conditional` to `false`.  Evaluating
the embedding at the spec's own example shows the Button dependency with
conditional flag `false`. -/
theorem claim_C1_code_divergence :
    (analyzeFragment
      ⟨fun m => m == "sap/m/Button.js", false, ModuleInfo.empty, false, []⟩
      (.ok (.mk "sap.ui.core" "FragmentDefinition" []
        (.cons (.mk TEMPLATING_NAMESPACE "if" []
          (.cons (.mk "sap.m" "Button" [] .nil) .nil)) .nil)))
      (.mk "pony.fragment.xml" [] [] false [])).result =
      .resolved (.mk "pony.fragment.xml" [("sap/m/Button.js", false)]
        ["sap/ui/core/Fragment.js"] false []) := rfl

/-- C7: a rejected `findResource` lookup records no dependency and
surfaces no error (the callback leaves the analyzer untouched); the
synchronous traversal — including the visit of every child — does not
depend on the pool at all; and on a parsed tree the analysis always
resolves with a Module Info once all lookups have settled. -/
theorem claim_C7 :
    (∀ (a : Analyzer) (pl : PendingLookup),
      a.pool pl.moduleName = false → _runLookup a pl = a) ∧
    (∀ (n : XmlNode) (a : Analyzer) (p : String → Bool),
      _analyzeNode n { a with pool := p } = { _analyzeNode n a with pool := p }) ∧
    (∀ (a : Analyzer) (root : XmlNode) (info : ModuleInfo) (isFragment : Bool),
      a.busy = false →
      ∃ i, (_analyze a (.ok root) info isFragment).result = .resolved i) := by
  refine ⟨fun a pl h => _runLookup_not_found h, ?_, ?_⟩
  · intro n a p
    rw [_analyzeNode_spec, _analyzeNode_spec]
  · intro a root info isFragment h
    exact ⟨_, by rw [_analyze_ok_eq h]⟩

/-- C7 witness: a fragment whose root's candidate name is not in the pool
still has its child Button analyzed and recorded; the failed lookup is
swallowed and the analysis resolves. -/
theorem claim_C7_witness :
    ((Analyzer.mk (fun m => m == "sap/m/Button.js") false
        ModuleInfo.empty false []).pool "sap/zz/Mystery.js" = false) ∧
    _runLookup
        (Analyzer.mk (fun m => m == "sap/m/Button.js") false
          (.mk "v.fragment.xml" [] [] false []) false [])
        ⟨"sap/zz/Mystery.js", .mk "sap.zz" "Mystery" [] .nil⟩ =
      Analyzer.mk (fun m => m == "sap/m/Button.js") false
        (.mk "v.fragment.xml" [] [] false []) false [] ∧
    (∃ i, (_analyze
      (Analyzer.mk (fun m => m == "sap/m/Button.js") false ModuleInfo.empty false [])
      (.ok (.mk "sap.zz" "Mystery" [] (.cons (.mk "sap.m" "Button" [] .nil) .nil)))
      (.mk "v.fragment.xml" [] [] false []) true).result = .resolved i) ∧
    (analyzeFragment
      (Analyzer.mk (fun m => m == "sap/m/Button.js") false ModuleInfo.empty false [])
      (.ok (.mk "sap.zz" "Mystery" [] (.cons (.mk "sap.m" "Button" [] .nil) .nil)))
      (.mk "v.fragment.xml" [] [] false [])).result =
      .resolved (.mk "v.fragment.xml" [("sap/m/Button.js", false)]
        ["sap/ui/core/Fragment.js"] false []) :=
  ⟨rfl, claim_C7.1 _ _ rfl, claim_C7.2.2 _ _ _ _ rfl, rfl⟩

/-- C8: calling `analyzeView` or `analyzeFragment` on a busy analyzer
throws synchronously ("analyzer is busy") and leaves the instance state —
info, conditional flag and pending lookups included — exactly as it was;
nothing is queued. -/
theorem claim_C8 (a : Analyzer) (xml : Except String XmlNode) (info : ModuleInfo)
    (h : a.busy = true) :
    analyzeView a xml info = ⟨.thrown "analyzer is busy", a, info⟩ ∧
    analyzeFragment a xml info = ⟨.thrown "analyzer is busy", a, info⟩ := by
  constructor <;> simp [analyzeView, analyzeFragment, _analyze, h]

/-- C8 witness: a concrete busy analyzer rejects a second `analyzeView`
synchronously, untouched. -/
theorem claim_C8_witness :
    (Analyzer.mk (fun _ => false) true ModuleInfo.empty false []).busy = true ∧
    analyzeView (Analyzer.mk (fun _ => false) true ModuleInfo.empty false [])
        (.ok (.mk "sap.m" "Button" [] .nil)) (.mk "v.view.xml" [] [] false []) =
      ⟨.thrown "analyzer is busy",
        Analyzer.mk (fun _ => false) true ModuleInfo.empty false [],
        .mk "v.view.xml" [] [] false []⟩ :=
  ⟨rfl, (claim_C8 (Analyzer.mk (fun _ => false) true ModuleInfo.empty false [])
    (.ok (.mk "sap.m" "Button" [] .nil)) (.mk "v.view.xml" [] [] false []) rfl).1⟩

/-- C9: on a parse failure both entry points reject with the parse error,
the caller-supplied Module Info is returned untouched (no dependency or
implicit dependency was added), and the busy flag is cleared so the
instance is free for reuse. -/
theorem claim_C9 (a : Analyzer) (e : String) (info : ModuleInfo)
    (h : a.busy = false) :
    analyzeView a (.error e) info =
      ⟨.rejected e,
        { a with info := info, conditional := false, promises := [], busy := false },
        info⟩ ∧
    analyzeFragment a (.error e) info =
      ⟨.rejected e,
        { a with info := info, conditional := false, promises := [], busy := false },
        info⟩ := by
  constructor <;> simp [analyzeView, analyzeFragment, _analyze, h]

/-- C9 witness: a concrete malformed input is rejected with its parse
error, the supplied info comes back unchanged and the analyzer is free
again. -/
theorem claim_C9_witness :
    (Analyzer.mk (fun _ => true) false ModuleInfo.empty false []).busy = false ∧
    analyzeView (Analyzer.mk (fun _ => true) false ModuleInfo.empty false [])
        (.error "Unexpected end of input") (.mk "v.view.xml" [] [] false []) =
      ⟨.rejected "Unexpected end of input",
        Analyzer.mk (fun _ => true) false (.mk "v.view.xml" [] [] false []) false [],
        .mk "v.view.xml" [] [] false []⟩ :=
  ⟨rfl, (claim_C9 (Analyzer.mk (fun _ => true) false ModuleInfo.empty false [])
    "Unexpected end of input" (.mk "v.view.xml" [] [] false []) rfl).1⟩

end UI5
